import Mathlib

/-!
# Verification of the popol readiness-polling core

A shallow embedding of `src/lib.rs` (the `popol` crate): the event-flag
constants, the `Descriptor` entry, the keyed `Descriptors` registry with its
waker side-table, the `Waker` bookkeeping, and the `wait` routine.

Modelling conventions:
* `Events` (`libc::c_short`) is modelled as `Nat`, holding the 16-bit pattern
  of the C value.  The flag constants are the Linux `libc` values the crate
  compiles against.
* File descriptors (`RawFd`) are modelled as `Int`.
* `HashMap<usize, UnixStream>` is modelled as an association list from
  position to the reader endpoint's descriptor number; `insert` replaces an
  existing binding, lookup returns the first binding, matching `HashMap`.
* The `poll(2)` system call is external: `wait` is modelled on the post-poll
  state, i.e. the registry with `revents` already filled in by the kernel,
  together with poll's return value and the thread's `errno`.
* Each `UnixStream` endpoint's future `read`/`write` system-call results are
  prescribed by a list of `IoCall` outcomes; `read_exact` / `write_all` are
  modelled from their documented `std::io` semantics (retry on `Interrupted`,
  `Ok(0)` means `UnexpectedEof` / `WriteZero`, other errors returned).
* A `panic!` / failed `assert!` / `.unwrap()` on `Err` is modelled by `none`;
  run functions return `Option` results where `none` means the program
  aborted.
-/

namespace Popol

/-- `type Events = libc::c_short` — a readiness bitmask, as a 16-bit pattern. -/
abbrev Events := Nat

namespace events

/-- The associated file is available for read operations (`libc::POLLIN`). -/
def POLLIN : Events := 0x001
/-- There is urgent data available for read operations (`libc::POLLPRI`). -/
def POLLPRI : Events := 0x002
/-- The associated file is available for write operations (`libc::POLLOUT`). -/
def POLLOUT : Events := 0x004
/-- Error condition happened on the associated file descriptor (`libc::POLLERR`). -/
def POLLERR : Events := 0x008
/-- Hang up happened on the associated file descriptor (`libc::POLLHUP`). -/
def POLLHUP : Events := 0x010
/-- The associated file is invalid (`libc::POLLNVAL`). -/
def POLLNVAL : Events := 0x020
/-- The associated file is ready for write operations on the urgent band
(`libc::POLLWRBAND`, Linux value). -/
def POLLWRBAND : Events := 0x200

/-- `READ = POLLIN | POLLPRI`. -/
def READ : Events := POLLIN ||| POLLPRI
/-- `WRITE = POLLOUT | POLLWRBAND`. -/
def WRITE : Events := POLLOUT ||| POLLWRBAND

end events

/-- `struct Descriptor { fd, events, revents }`: native handle, requested
interest bitmask, observed readiness bitmask. -/
structure Descriptor where
  fd : Int
  events : Events
  revents : Events
deriving DecidableEq, Repr

/-- `Descriptor::new(fd, events)` — observed readiness starts at zero. -/
def Descriptor.new (fd : Int) (events : Events) : Descriptor :=
  { fd := fd, events := events, revents := 0 }

/-- `Descriptor::set`: bitwise-OR flags into the requested interest. -/
def Descriptor.set (d : Descriptor) (events : Events) : Descriptor :=
  { d with events := d.events ||| events }

/-- `Descriptor::unset`: bitwise-AND-NOT; the complement is taken in the
16-bit value space of `c_short`. -/
def Descriptor.unset (d : Descriptor) (events : Events) : Descriptor :=
  { d with events := d.events &&& (events ^^^ 0xFFFF) }

/-- The borrowed view `struct Event` built from a descriptor: four boolean
facets plus the originating entry (modelled as a copy rather than a mutable
borrow). -/
structure Event where
  writable : Bool
  readable : Bool
  hangup : Bool
  errored : Bool
  descriptor : Descriptor
deriving DecidableEq, Repr

/-- `impl From<&mut Descriptor> for Event` — the facet derivation from the
observed readiness bits. -/
def Event.ofDescriptor (d : Descriptor) : Event :=
  { readable := d.revents &&& events.READ != 0
    writable := d.revents &&& events.WRITE != 0
    hangup := d.revents &&& events.POLLHUP != 0
    errored := d.revents &&& (events.POLLERR ||| events.POLLNVAL) != 0
    descriptor := d }

/-- `Iterator::position(|k| k == key)` on a key list: index of the first
element equal to `key`. -/
def positionOf {K : Type} [DecidableEq K] (key : K) : List K → Option Nat
  | [] => none
  | k :: rest => if k = key then some 0 else (positionOf key rest).map (· + 1)

/-- `Vec::swap_remove(i)`: the element at `i` is replaced by the last element
and the vector shrinks by one.  (The source indexes with a position returned
by a successful search, so `i` is always in bounds there.) -/
def swapRemoveL {α : Type} (l : List α) (i : Nat) : List α :=
  match l.getLast? with
  | none => l
  | some x => (l.set i x).dropLast

/-- In-place update of the element at index `i` (`self.list[ix].events = …`). -/
def modifyIdx {α : Type} : List α → Nat → (α → α) → List α
  | [], _, _ => []
  | x :: xs, 0, f => f x :: xs
  | x :: xs, n + 1, f => x :: modifyIdx xs n f

/-- `HashMap::insert`: replace the binding for `k` if present, else add it. -/
def insertAssoc (m : List (Nat × Int)) (k : Nat) (v : Int) : List (Nat × Int) :=
  match m with
  | [] => [(k, v)]
  | (k', v') :: rest => if k' = k then (k, v) :: rest else (k', v') :: insertAssoc rest k v

/-- `HashMap::get_mut(&k)`: the binding for `k`, if any. -/
def lookupAssoc (m : List (Nat × Int)) (k : Nat) : Option Int :=
  match m with
  | [] => none
  | (k', v) :: rest => if k' = k then some v else lookupAssoc rest k

/-- `struct Descriptors<K>`: the waker side-table (position ↦ reader
endpoint), the ordered key list, and the ordered entry list. -/
structure Descriptors (K : Type) where
  wakers : List (Nat × Int)
  index : List K
  list : List Descriptor
deriving DecidableEq, Repr

/-- `Descriptors::new()`. -/
def Descriptors.new {K : Type} : Descriptors K :=
  { wakers := [], index := [], list := [] }

/-- `Descriptors::with_capacity(cap)` — capacity only preallocates; the
observable state is identical to `new`. -/
def Descriptors.with_capacity {K : Type} (_cap : Nat) : Descriptors K :=
  { wakers := [], index := [], list := [] }

/-- `Descriptors::insert(key, descriptor)`: push onto both parallel lists. -/
def Descriptors.insert {K : Type} (d : Descriptors K) (key : K) (descriptor : Descriptor) :
    Descriptors K :=
  { d with index := d.index ++ [key], list := d.list ++ [descriptor] }

/-- `Descriptors::register(key, fd, events)`. -/
def Descriptors.register {K : Type} (d : Descriptors K) (key : K) (fd : Int) (events : Events) :
    Descriptors K :=
  d.insert key (Descriptor.new fd events)

/-- `Descriptors::unregister(&key)`: swap-remove the first matching position
from both lists; no-op if the key is absent.  The waker side-table is not
touched. -/
def Descriptors.unregister {K : Type} [DecidableEq K] (d : Descriptors K) (key : K) :
    Descriptors K :=
  match positionOf key d.index with
  | some ix => { d with index := swapRemoveL d.index ix, list := swapRemoveL d.list ix }
  | none => d

/-- `Descriptors::set(&key, events)`: replace (not merge) the interest of the
first matching entry; returns whether the key was found. -/
def Descriptors.set {K : Type} [DecidableEq K] (d : Descriptors K) (key : K) (events : Events) :
    Descriptors K × Bool :=
  match positionOf key d.index with
  | some ix => ({ d with list := modifyIdx d.list ix (fun de => { de with events := events }) },
                true)
  | none => (d, false)

/-- `Descriptors::get_mut(&key)`: the entry at the first matching position. -/
def Descriptors.get_mut {K : Type} [DecidableEq K] (d : Descriptors K) (key : K) :
    Option Descriptor :=
  match positionOf key d.index with
  | some ix => d.list[ix]?
  | none => none

/-- `Waker::new(descriptors, key)`, success path of the registry bookkeeping:
record the reader's position (the current list length) in the waker
side-table, then insert the reader under `key` with read interest.
`readerFd` stands for the reader half of the fresh `UnixStream::pair()`; the
writer half lives in the returned `Waker` value and is modelled separately by
its prescribed write outcomes. -/
def Waker.new {K : Type} (d : Descriptors K) (key : K) (readerFd : Int) : Descriptors K :=
  let d1 := { d with wakers := insertAssoc d.wakers d.list.length readerFd }
  d1.insert key (Descriptor.new readerFd events.READ)

/-- The consistency property the waker side-table is supposed to maintain:
every recorded position denotes an in-bounds entry whose handle is that
waker's reader endpoint. -/
def wakersConsistentB {K : Type} (d : Descriptors K) : Bool :=
  d.wakers.all fun p =>
    match d.list[p.1]? with
    | some de => de.fd == p.2
    | none => false

/-- The error kinds relevant to the waker's read/write paths
(`std::io::ErrorKind`). -/
inductive IoErrKind where
  | interrupted
  | wouldBlock
  | unexpectedEof
  | writeZero
  | other
deriving DecidableEq, Repr

/-- The outcome of one `read`/`write` system call on an endpoint:
`ok n` means the call transferred `n` bytes, `err k` means it failed. -/
inductive IoCall where
  | ok (n : Nat)
  | err (k : IoErrKind)
deriving DecidableEq, Repr

/-- `Read::read_exact` over a buffer of `need` bytes, consuming prescribed
call outcomes (documented `std::io` semantics): `Ok(0)` breaks the loop and
yields `UnexpectedEof`, `Interrupted` is retried, any other error is returned
at once.  On success the unconsumed outcomes are returned.  `none` means the
prescription ran out, i.e. the run is not determined by the given outcomes. -/
def readExactGo : List IoCall → Nat → Option (Except IoErrKind (List IoCall))
  | calls, 0 => some (.ok calls)
  | [], _ + 1 => none
  | c :: rest, need + 1 =>
    match c with
    | .ok 0 => some (.error .unexpectedEof)
    | .ok (n + 1) => readExactGo rest (need - n)
    | .err e => if e = .interrupted then readExactGo rest (need + 1) else some (.error e)

/-- `Waker::snooze(reader)`: `read_exact` of one sentinel byte. -/
def snooze (calls : List IoCall) : Option (Except IoErrKind (List IoCall)) :=
  readExactGo calls 1

/-- `Write::write_all` over the byte buffer `buf`, consuming prescribed call
outcomes (documented `std::io` semantics): `Ok(0)` yields `WriteZero`,
`Interrupted` is retried, any other error is returned at once. -/
def writeAllGo : List IoCall → List Nat → Option (Except IoErrKind (List IoCall))
  | calls, [] => some (.ok calls)
  | [], _ :: _ => none
  | c :: rest, b :: bs =>
    match c with
    | .ok 0 => some (.error .writeZero)
    | .ok (n + 1) => writeAllGo rest ((b :: bs).drop (n + 1))
    | .err e => if e = .interrupted then writeAllGo rest (b :: bs) else some (.error e)

/-- `Waker::wake()`: `write_all(&[0x1])` on the writer half, whose future
write outcomes are prescribed by `calls`; all `write_all` errors are
propagated unchanged. -/
def wake (calls : List IoCall) : Option (Except IoErrKind Unit) :=
  match writeAllGo calls [0x1] with
  | none => none
  | some (.ok _) => some (.ok ())
  | some (.error e) => some (.error e)

/-- The prescribed future read outcomes of each waker reader endpoint,
keyed by its descriptor number. -/
abbrev Pipes := List (Int × List IoCall)

/-- The read-outcome prescription of the endpoint `fd`, if any. -/
def lookupPipe (p : Pipes) (fd : Int) : Option (List IoCall) :=
  match p with
  | [] => none
  | (fd', calls) :: rest => if fd' = fd then some calls else lookupPipe rest fd

/-- Replace the read-outcome prescription of the endpoint `fd`. -/
def updatePipe (p : Pipes) (fd : Int) (calls : List IoCall) : Pipes :=
  match p with
  | [] => []
  | (fd', calls') :: rest =>
    if fd' = fd then (fd, calls) :: rest else (fd', calls') :: updatePipe rest fd calls

/-- `iter().zip(..).enumerate()` starting at position `n`. -/
def enumFromN {α : Type} (n : Nat) : List α → List (Nat × α)
  | [] => []
  | x :: xs => (n, x) :: enumFromN (n + 1) xs

/-- The element sequence underlying `wait`'s ready iterator:
`index.iter().zip(list.iter_mut()).enumerate().filter(|(_, (_, d))| d.revents != 0)`. -/
def readySeq {K : Type} (d : Descriptors K) : List (Nat × K × Descriptor) :=
  (enumFromN 0 (d.index.zip d.list)).filter fun x => x.2.2.revents != 0

/-- Modelled from the spec: the pairs a `Ready` result is required to yield —
the (key, entry) pairs filtered to those whose observed-readiness bitmask is
nonzero, in original registration order, each entry shown as its event view. -/
def readyPairsSpec {K : Type} (d : Descriptors K) : List (K × Event) :=
  ((d.index.zip d.list).filter fun kd => kd.2.revents != 0).map fun kd =>
    (kd.1, Event.ofDescriptor kd.2)

/-- The effectful part of the `map` closure inside `wait`'s ready iterator:
if the position is in the waker side-table, the two `assert!`s run (failure
aborts: `none`), then `snooze` drains the reader (the `unwrap` of an `Err`
aborts); the resulting pipe state is returned.  Positions not in the
side-table have no effects. -/
def consumeEffects {K : Type} (wakers : List (Nat × Int)) (pipes : Pipes) :
    Nat × K × Descriptor → Option Pipes
  | (i, _, descriptor) =>
  let revents := descriptor.revents
  match lookupAssoc wakers i with
  | some fd =>
    if revents &&& events.READ = 0 then none
    else if revents &&& events.WRITE ≠ 0 then none
    else
      match lookupPipe pipes fd with
      | none => none
      | some calls =>
        match snooze calls with
        | none => none
        | some (.error _) => none
        | some (.ok rest) => some (updatePipe pipes fd rest)
  | none => some pipes

/-- One step of the `map` closure: run the waker effects, then yield the
`(key.clone(), Event::from(descriptor))` pair. -/
def consumeStep {K : Type} (wakers : List (Nat × Int)) (pipes : Pipes)
    (e : Nat × K × Descriptor) : Option (Pipes × (K × Event)) :=
  (consumeEffects wakers pipes e).map fun pipes' =>
    (pipes', (e.2.1, Event.ofDescriptor e.2.2))

/-- Full consumption of the ready iterator: the pairs yielded in order, plus
the final pipe state; `none` if any step aborted the program. -/
def consumeGo {K : Type} (wakers : List (Nat × Int)) (pipes : Pipes) :
    List (Nat × K × Descriptor) → Option (List (K × Event) × Pipes)
  | [] => some ([], pipes)
  | e :: rest =>
    (consumeStep wakers pipes e).bind fun pp =>
      (consumeGo wakers pp.1 rest).map fun lp => (pp.2 :: lp.1, lp.2)

/-- `enum Wait<K>`: either no events, or the ready element sequence the lazy
iterator ranges over. -/
inductive Wait (K : Type) where
  | timeout
  | ready (elems : List (Nat × K × Descriptor))
deriving DecidableEq, Repr

/-- `Wait::iter`: the ready variant yields its sequence, the timeout variant
yields the empty sequence. -/
def Wait.iterElems {K : Type} : Wait K → List (Nat × K × Descriptor)
  | .timeout => []
  | .ready elems => elems

/-- `Wait::is_empty`: `matches!(self, Self::Timeout)`. -/
def Wait.is_empty {K : Type} : Wait K → Bool
  | .timeout => true
  | .ready _ => false

/-- `io::Error::from_raw_os_error` view: an OS-level error carrying the
underlying error code. -/
structure IoError where
  code : Int
deriving DecidableEq, Repr

/-- `Duration::as_millis()`: whole milliseconds of a duration of `secs`
seconds plus `nanos` nanoseconds (exact in `u128`, no overflow possible). -/
def durationAsMillis (secs nanos : Nat) : Nat :=
  secs * 1000 + nanos / 1000000

/-- The Rust `as libc::c_int` cast from `u128`: truncate to the low 32 bits
and reinterpret as a signed two's-complement value. -/
def millisToCInt (m : Nat) : Int :=
  let r : Nat := m % 2 ^ 32
  if r < 2 ^ 31 then (r : Int) else (r : Int) - 2 ^ 32

/-- The third argument `wait` passes to `poll`:
`timeout.as_millis() as libc::c_int`. -/
def pollTimeoutArg (secs nanos : Nat) : Int :=
  millisToCInt (durationAsMillis secs nanos)

/-- `wait(fds, timeout)` after the `poll` call: `poll` has filled the
`revents` of `d`'s entries and returned `pollRet` (with `errno` set on
failure).  `result == 0` is a timeout, `result > 0` builds the lazy ready
sequence, and a negative result becomes `io::Error::last_os_error()`. -/
def wait {K : Type} (d : Descriptors K) (pollRet : Int) (errno : Int) :
    Except IoError (Wait K) :=
  if pollRet = 0 then .ok .timeout
  else if 0 < pollRet then .ok (.ready (readySeq d))
  else .error { code := errno }

/-- The registry-mutating operations of the public interface, for invariant
claims over arbitrary operation sequences. -/
inductive Op (K : Type) where
  | register (key : K) (fd : Int) (events : Events)
  | insert (key : K) (d : Descriptor)
  | unregister (key : K)
  | set (key : K) (events : Events)
  | wakerNew (key : K) (readerFd : Int)

/-- Apply one operation to the registry. -/
def applyOp {K : Type} [DecidableEq K] (d : Descriptors K) : Op K → Descriptors K
  | .register key fd ev => d.register key fd ev
  | .insert key de => d.insert key de
  | .unregister key => d.unregister key
  | .set key ev => (d.set key ev).1
  | .wakerNew key readerFd => Waker.new d key readerFd

/-- Apply a sequence of operations to the registry. -/
def applyOps {K : Type} [DecidableEq K] (d : Descriptors K) (ops : List (Op K)) : Descriptors K :=
  ops.foldl applyOp d

/-- The two registry constructors. -/
def initReg (K : Type) (cap : Option Nat) : Descriptors K :=
  match cap with
  | none => Descriptors.new
  | some c => Descriptors.with_capacity c

/-- A concrete registry for witnessing the ready-iteration claims: a waker
entry at position 0 (reader endpoint 10, readable), a registered entry with
no observed readiness, and a plain readable entry. -/
def wReg : Descriptors Nat :=
  { wakers := [(0, 10)]
    index := [100, 101, 102]
    list := [{ fd := 10, events := events.READ, revents := events.POLLIN },
             { fd := 20, events := events.READ, revents := 0 },
             { fd := 30, events := events.READ, revents := events.POLLIN }] }

/-! ## Helper lemmas -/

theorem or_eq_zero_iff_both (a b : Nat) : a ||| b = 0 ↔ a = 0 ∧ b = 0 := by
  constructor
  · intro h
    have key : ∀ i, a.testBit i = false ∧ b.testBit i = false := by
      intro i
      have hb := congrArg (fun x => Nat.testBit x i) h
      simpa only [Nat.testBit_or, Nat.zero_testBit, Bool.or_eq_false_iff] using hb
    exact ⟨Nat.eq_of_testBit_eq fun i => by simp [(key i).1],
           Nat.eq_of_testBit_eq fun i => by simp [(key i).2]⟩
  · rintro ⟨rfl, rfl⟩
    rfl

theorem and_mask_or_ne_zero (x a b : Nat) :
    x &&& (a ||| b) ≠ 0 ↔ x &&& a ≠ 0 ∨ x &&& b ≠ 0 := by
  rw [Nat.and_or_distrib_left, Ne, or_eq_zero_iff_both, not_and_or]

theorem enumFromN_filter_map {α β : Type} (p : α → Bool) (f : α → β) :
    ∀ (l : List α) (n : Nat),
      (((enumFromN n l).filter fun x => p x.2).map fun x => f x.2) = (l.filter p).map f := by
  intro l
  induction l with
  | nil => intro n; rfl
  | cons x xs ih =>
    intro n
    by_cases hx : p x = true
    · simp [enumFromN, List.filter_cons, hx, ih]
    · simp [enumFromN, List.filter_cons, hx, ih]

theorem readySeq_map_eq_spec {K : Type} (d : Descriptors K) :
    ((readySeq d).map fun x => (x.2.1, Event.ofDescriptor x.2.2)) = readyPairsSpec d := by
  unfold readySeq readyPairsSpec
  exact enumFromN_filter_map (fun kd => kd.2.revents != 0)
    (fun kd => (kd.1, Event.ofDescriptor kd.2)) (d.index.zip d.list) 0

theorem consumeStep_pair {K : Type} (wakers : List (Nat × Int)) (pipes : Pipes)
    (e : Nat × K × Descriptor) (p' : Pipes) (pr : K × Event)
    (h : consumeStep wakers pipes e = some (p', pr)) :
    pr = (e.2.1, Event.ofDescriptor e.2.2) := by
  unfold consumeStep at h
  cases he : consumeEffects wakers pipes e with
  | none => rw [he] at h; exact absurd h (by simp)
  | some pipes' =>
    rw [he] at h
    simp only [Option.map_some', Option.some.injEq, Prod.mk.injEq] at h
    exact h.2.symm

theorem consumeGo_yields {K : Type} (wakers : List (Nat × Int)) :
    ∀ (elems : List (Nat × K × Descriptor)) (pipes : Pipes) (l : List (K × Event)) (pf : Pipes),
      consumeGo wakers pipes elems = some (l, pf) →
      l = elems.map fun x => (x.2.1, Event.ofDescriptor x.2.2) := by
  intro elems
  induction elems with
  | nil =>
    intro pipes l pf h
    simp only [consumeGo, Option.some.injEq, Prod.mk.injEq] at h
    simp [← h.1]
  | cons e rest ih =>
    intro pipes l pf h
    unfold consumeGo at h
    cases hs : consumeStep wakers pipes e with
    | none => rw [hs] at h; exact absurd h (by simp)
    | some pp =>
      obtain ⟨p', pr⟩ := pp
      rw [hs] at h
      simp only [Option.some_bind] at h
      cases hg : consumeGo wakers p' rest with
      | none => rw [hg] at h; exact absurd h (by simp)
      | some lp =>
        obtain ⟨l', pf'⟩ := lp
        rw [hg] at h
        simp only [Option.map_some', Option.some.injEq, Prod.mk.injEq] at h
        rw [← h.1, consumeStep_pair wakers pipes e p' pr hs, List.map_cons,
          ih p' l' pf' hg]

theorem positionOf_append_cons {K : Type} [DecidableEq K] (k : K) :
    ∀ (l tail : List K), (∀ x ∈ l, x ≠ k) →
      positionOf k (l ++ k :: tail) = some l.length := by
  intro l
  induction l with
  | nil => intro tail _; simp [positionOf]
  | cons y ys ih =>
    intro tail h
    have hy : ¬y = k := h y (List.mem_cons_self y ys)
    simp [positionOf, hy, ih tail fun x hx => h x (List.mem_cons_of_mem y hx)]

theorem positionOf_some_ne_nil {K : Type} [DecidableEq K] (k : K) (l : List K) (ix : Nat)
    (h : positionOf k l = some ix) : l ≠ [] := by
  intro hnil
  subst hnil
  exact absurd h (by simp [positionOf])

theorem modifyIdx_length {α : Type} (f : α → α) :
    ∀ (l : List α) (i : Nat), (modifyIdx l i f).length = l.length := by
  intro l
  induction l with
  | nil => intro i; rfl
  | cons x xs ih =>
    intro i
    cases i with
    | zero => simp [modifyIdx]
    | succ n => simp [modifyIdx, ih]

theorem modifyIdx_append {α : Type} (f : α → α) :
    ∀ (l l' : List α), modifyIdx (l ++ l') l.length f = l ++ modifyIdx l' 0 f := by
  intro l
  induction l with
  | nil => intro l'; rfl
  | cons x xs ih => intro l'; simp [modifyIdx, ih]

theorem swapRemoveL_length_cons {α : Type} (x : α) (xs : List α) (i : Nat) :
    (swapRemoveL (x :: xs) i).length = xs.length := by
  unfold swapRemoveL
  cases hl : (x :: xs).getLast? with
  | none => simp [List.getLast?_eq_none_iff] at hl
  | some y => simp

theorem applyOp_len {K : Type} [DecidableEq K] (d : Descriptors K) (op : Op K)
    (h : d.index.length = d.list.length) :
    (applyOp d op).index.length = (applyOp d op).list.length := by
  cases op with
  | register key fd ev => simp [applyOp, Descriptors.register, Descriptors.insert, h]
  | insert key de => simp [applyOp, Descriptors.insert, h]
  | unregister key =>
    simp only [applyOp]
    unfold Descriptors.unregister
    cases hpos : positionOf key d.index with
    | none => simpa using h
    | some ix =>
      have hnil : d.index ≠ [] := positionOf_some_ne_nil key d.index ix hpos
      cases hidx : d.index with
      | nil => exact absurd hidx hnil
      | cons y ys =>
        cases hlst : d.list with
        | nil => rw [hidx, hlst] at h; simp at h
        | cons z zs =>
          rw [hidx, hlst] at h
          simp only [List.length_cons, Nat.succ.injEq] at h
          simp [swapRemoveL_length_cons, h]
  | set key ev =>
    simp only [applyOp]
    unfold Descriptors.set
    cases hpos : positionOf key d.index with
    | none => simpa using h
    | some ix => simp [modifyIdx_length, h]
  | wakerNew key readerFd => simp [applyOp, Waker.new, Descriptors.insert, h]

theorem applyOps_len {K : Type} [DecidableEq K] :
    ∀ (ops : List (Op K)) (d : Descriptors K), d.index.length = d.list.length →
      (applyOps d ops).index.length = (applyOps d ops).list.length := by
  intro ops
  induction ops with
  | nil => intro d h; exact h
  | cons op rest ih =>
    intro d h
    simpa [applyOps] using ih (applyOp d op) (applyOp_len d op h)

theorem readExactGo_zero (calls : List IoCall) :
    readExactGo calls 0 = some (Except.ok calls) := by
  cases calls <;> rfl

theorem writeAllGo_nil (calls : List IoCall) :
    writeAllGo calls [] = some (Except.ok calls) := by
  cases calls <;> rfl

theorem readExactGo_ok_one (rest : List IoCall) :
    readExactGo (IoCall.ok 1 :: rest) 1 = some (Except.ok rest) := by
  show readExactGo rest (0 - 0) = _
  exact readExactGo_zero rest

theorem readExactGo_skips_interrupted :
    ∀ (pre : List IoCall), (∀ c ∈ pre, c = IoCall.err IoErrKind.interrupted) →
      ∀ (suffix : List IoCall), readExactGo (pre ++ suffix) 1 = readExactGo suffix 1 := by
  intro pre
  induction pre with
  | nil => intro _ suffix; rfl
  | cons c cs ih =>
    intro h suffix
    have hc : c = IoCall.err IoErrKind.interrupted := h c (List.mem_cons_self c cs)
    subst hc
    simp only [List.cons_append]
    show readExactGo (IoCall.err IoErrKind.interrupted :: (cs ++ suffix)) 1 = _
    rw [show readExactGo (IoCall.err IoErrKind.interrupted :: (cs ++ suffix)) 1 =
        readExactGo (cs ++ suffix) 1 from by simp [readExactGo]]
    exact ih (fun x hx => h x (List.mem_cons_of_mem _ hx)) suffix

theorem writeAllGo_skips_interrupted :
    ∀ (pre : List IoCall), (∀ c ∈ pre, c = IoCall.err IoErrKind.interrupted) →
      ∀ (suffix : List IoCall) (b : Nat) (bs : List Nat),
        writeAllGo (pre ++ suffix) (b :: bs) = writeAllGo suffix (b :: bs) := by
  intro pre
  induction pre with
  | nil => intro _ suffix b bs; rfl
  | cons c cs ih =>
    intro h suffix b bs
    have hc : c = IoCall.err IoErrKind.interrupted := h c (List.mem_cons_self c cs)
    subst hc
    simp only [List.cons_append]
    rw [show writeAllGo (IoCall.err IoErrKind.interrupted :: (cs ++ suffix)) (b :: bs) =
        writeAllGo (cs ++ suffix) (b :: bs) from by simp [writeAllGo]]
    exact ih (fun x hx => h x (List.mem_cons_of_mem _ hx)) suffix b bs

/-! ## Claims -/

/-- C1: for every registry and every wait call where the readiness check
reports `count > 0`, `wait` returns a `Ready` result whose lazy sequence —
whenever its consumption completes — yields exactly the (key, event) pairs of
entries whose observed-readiness bitmask is nonzero, in original registration
order (post any prior swap-removals), and yields no entry whose bitmask is
zero. -/
theorem wait_ready_yields_exactly_nonzero {K : Type} (d : Descriptors K)
    (pollRet errno : Int) (pipes : Pipes) (l : List (K × Event)) (pf : Pipes)
    (hpos : 0 < pollRet)
    (hrun : consumeGo d.wakers pipes (readySeq d) = some (l, pf)) :
    wait d pollRet errno = Except.ok (Wait.ready (readySeq d)) ∧
    l = readyPairsSpec d ∧
    (readySeq d).all (fun x => x.2.2.revents != 0) = true := by
  refine ⟨?_, ?_, ?_⟩
  · unfold wait
    rw [if_neg (by omega), if_pos hpos]
  · rw [consumeGo_yields d.wakers (readySeq d) pipes l pf hrun, readySeq_map_eq_spec]
  · simp only [readySeq, List.all_eq_true]
    intro x hx
    exact (List.mem_filter.mp hx).2

/-- Witness for C1 at a concrete registry with a waker, a quiet entry and a
ready entry. -/
theorem wait_ready_yields_exactly_nonzero_witness :
    wait wReg 1 0 = Except.ok (Wait.ready (readySeq wReg)) ∧
    [((100 : Nat), Event.ofDescriptor
        { fd := 10, events := events.READ, revents := events.POLLIN }),
     ((102 : Nat), Event.ofDescriptor
        { fd := 30, events := events.READ, revents := events.POLLIN })] =
      readyPairsSpec wReg ∧
    (readySeq wReg).all (fun x => x.2.2.revents != 0) = true :=
  wait_ready_yields_exactly_nonzero wReg 1 0 [((10 : Int), [IoCall.ok 1])]
    [((100 : Nat), Event.ofDescriptor
        { fd := 10, events := events.READ, revents := events.POLLIN }),
     ((102 : Nat), Event.ofDescriptor
        { fd := 30, events := events.READ, revents := events.POLLIN })]
    [((10 : Int), ([] : List IoCall))] (by decide) (by decide)

/-- C2: when the readiness check reports zero ready entries `wait` returns
`Wait::Timeout`, whose iterator yields nothing; when the check reports an
error (negative return), `wait` fails with an OS-level error carrying the
underlying error code and returns no events. -/
theorem wait_timeout_empty_and_error_code {K : Type} (d : Descriptors K)
    (errno : Int) (pipes : Pipes) (n : Nat) :
    wait d 0 errno = Except.ok Wait.timeout ∧
    Wait.iterElems (Wait.timeout : Wait K) = [] ∧
    consumeGo d.wakers pipes (Wait.iterElems (Wait.timeout : Wait K)) = some ([], pipes) ∧
    wait d (Int.negSucc n) errno = Except.error { code := errno } := by
  refine ⟨by simp [wait], rfl, rfl, ?_⟩
  rw [Int.negSucc_eq]
  unfold wait
  rw [if_neg (by omega), if_neg (by omega)]

/-- C3 (evaluation of the failing input): the waker side-table is NOT kept
consistent with swap-removal.  In a registry holding a plain entry (key 0)
followed by a waker (key 1, reader endpoint 5), the table is consistent;
after `unregister(0)` swap-relocates the waker entry to position 0, the
table still records position 1 and no longer refers to the waker's reader
entry. -/
theorem waker_table_stale_after_unregister :
    wakersConsistentB
      (Waker.new ((Descriptors.new : Descriptors Nat).register 0 3 events.READ) 1 5) = true ∧
    wakersConsistentB
      ((Waker.new ((Descriptors.new : Descriptors Nat).register 0 3 events.READ) 1 5).unregister
        0) = false := by
  decide

/-- C4 counterexample: the timeout conversion does not saturate.  A duration
of 2147484 s is 2147484000 ms, which exceeds `c_int`'s maximum 2147483647,
yet it is converted to the negative value -2147483296, not to the maximum. -/
theorem timeout_cast_not_saturating :
    pollTimeoutArg 2147484 0 = -2147483296 ∧
    (-2147483296 : Int) ≠ 2147483647 ∧
    2147483647 < durationAsMillis 2147484 0 := by
  decide

/-- C4 amended: `timeout.as_millis() as libc::c_int` truncates the
millisecond count to its low 32 bits reinterpreted as a signed
two's-complement value (wrapping, congruent mod 2^32), so counts of 2^31 or
more can become negative or smaller values; it never saturates. -/
theorem timeout_cast_wraps_mod32 (secs nanos : Nat) :
    -(2 ^ 31) ≤ pollTimeoutArg secs nanos ∧
    pollTimeoutArg secs nanos < 2 ^ 31 ∧
    pollTimeoutArg secs nanos % ((2 : Int) ^ 32) =
      (durationAsMillis secs nanos : Int) % ((2 : Int) ^ 32) := by
  simp only [pollTimeoutArg, millisToCInt]
  norm_num
  split <;> omega

/-- C5 counterexample: a would-block write failure is NOT ignored —
`wake` propagates it as an error instead of returning success. -/
theorem wake_would_block_not_ignored :
    wake [IoCall.err IoErrKind.wouldBlock] = some (Except.error IoErrKind.wouldBlock) ∧
    some (Except.error IoErrKind.wouldBlock) ≠ (some (Except.ok ()) :
      Option (Except IoErrKind Unit)) := by
  exact ⟨rfl, fun h => Except.noConfusion (Option.some.inj h)⟩

/-- C5 amended: `Waker::wake` writes a single sentinel byte via `write_all`,
which retries when the write is interrupted; every other write failure —
including would-block — is propagated as an I/O error, and a successful
write returns success. -/
theorem wake_propagates_all_errors (pre rest : List IoCall) (k : IoErrKind) (n : Nat)
    (hpre : ∀ c ∈ pre, c = IoCall.err IoErrKind.interrupted)
    (hk : k ≠ IoErrKind.interrupted) :
    wake (pre ++ IoCall.err k :: rest) = some (Except.error k) ∧
    wake (pre ++ IoCall.ok (n + 1) :: rest) = some (Except.ok ()) := by
  constructor
  · unfold wake
    rw [writeAllGo_skips_interrupted pre hpre (IoCall.err k :: rest) 1 []]
    simp [writeAllGo, hk]
  · unfold wake
    rw [writeAllGo_skips_interrupted pre hpre (IoCall.ok (n + 1) :: rest) 1 []]
    simp [writeAllGo, writeAllGo_nil]

/-- Witness for C5's amended claim: after one interrupted write, a
would-block failure is propagated and a 1-byte write succeeds. -/
theorem wake_propagates_all_errors_witness :
    wake ([IoCall.err IoErrKind.interrupted] ++ IoCall.err IoErrKind.wouldBlock :: []) =
      some (Except.error IoErrKind.wouldBlock) ∧
    wake ([IoCall.err IoErrKind.interrupted] ++ IoCall.ok 1 :: []) = some (Except.ok ()) :=
  wake_propagates_all_errors [IoCall.err IoErrKind.interrupted] [] IoErrKind.wouldBlock 0
    (by decide) (by decide)

/-- C6 counterexample: a waker entry whose observed readiness carries the
error, hangup and invalid flags on top of read (`revents = 0x39`:
POLLIN + POLLERR + POLLHUP + POLLNVAL) does NOT stop the program — both
asserts pass, the entry is drained and yielded as a normal event. -/
theorem waker_flags_beyond_read_not_fatal :
    consumeStep [((0 : Nat), (5 : Int))] [((5 : Int), [IoCall.ok 1])]
        (0, (0 : Nat), { fd := 5, events := events.READ, revents := 57 }) =
      some ([((5 : Int), ([] : List IoCall))],
        ((0 : Nat), Event.ofDescriptor { fd := 5, events := events.READ, revents := 57 })) ∧
    (Event.ofDescriptor { fd := 5, events := events.READ, revents := 57 }).hangup = true ∧
    (Event.ofDescriptor { fd := 5, events := events.READ, revents := 57 }).errored = true ∧
    (Event.ofDescriptor { fd := 5, events := events.READ, revents := 57 }).readable = true := by
  decide

/-- C6 amended: for a yielded pair whose position is in the waker side-table,
the routine asserts a read bit is set and no write bit is set — it stops the
program when the entry reports no read readiness or any write readiness
(error/hangup/invalid flags alone do not stop it) — then drains one sentinel
byte and still yields the pair as a normal readable event. -/
theorem waker_assert_drain_yield {K : Type} (wakers : List (Nat × Int)) (pipes : Pipes)
    (i j : Nat) (key1 key2 : K) (descBad descOk : Descriptor) (fdi fdj : Int)
    (rest : List IoCall)
    (hwi : lookupAssoc wakers i = some fdi)
    (hbad : descBad.revents &&& events.READ = 0 ∨ descBad.revents &&& events.WRITE ≠ 0)
    (hwj : lookupAssoc wakers j = some fdj)
    (hok1 : descOk.revents &&& events.READ ≠ 0)
    (hok2 : descOk.revents &&& events.WRITE = 0)
    (hpipe : lookupPipe pipes fdj = some (IoCall.ok 1 :: rest)) :
    consumeStep wakers pipes (i, key1, descBad) = none ∧
    consumeStep wakers pipes (j, key2, descOk) =
      some (updatePipe pipes fdj rest, (key2, Event.ofDescriptor descOk)) ∧
    (Event.ofDescriptor descOk).readable = true := by
  refine ⟨?_, ?_, ?_⟩
  · rcases hbad with hb | hb
    · simp [consumeStep, consumeEffects, hwi, hb]
    · simp [consumeStep, consumeEffects, hwi, hb, ite_self]
  · simp [consumeStep, consumeEffects, hwj, hok1, hok2, hpipe, snooze, readExactGo_ok_one]
  · simp only [Event.ofDescriptor, bne_iff_ne, ne_eq]
    simpa using hok1

/-- Witness for C6's amended claim: a write-ready waker entry aborts, a
read-ready one drains one byte and is yielded readable. -/
theorem waker_assert_drain_yield_witness :
    consumeStep [((0 : Nat), (5 : Int)), ((1 : Nat), (6 : Int))] [((6 : Int), [IoCall.ok 1])]
        (0, (0 : Nat), { fd := 5, events := events.READ, revents := events.POLLOUT }) = none ∧
    consumeStep [((0 : Nat), (5 : Int)), ((1 : Nat), (6 : Int))] [((6 : Int), [IoCall.ok 1])]
        (1, (1 : Nat), { fd := 6, events := events.READ, revents := events.POLLIN }) =
      some (updatePipe [((6 : Int), [IoCall.ok 1])] 6 [],
        ((1 : Nat), Event.ofDescriptor
          { fd := 6, events := events.READ, revents := events.POLLIN })) ∧
    (Event.ofDescriptor
      { fd := 6, events := events.READ, revents := events.POLLIN }).readable = true :=
  waker_assert_drain_yield [((0 : Nat), (5 : Int)), ((1 : Nat), (6 : Int))]
    [((6 : Int), [IoCall.ok 1])] 0 1 (0 : Nat) (1 : Nat)
    { fd := 5, events := events.READ, revents := events.POLLOUT }
    { fd := 6, events := events.READ, revents := events.POLLIN } 5 6 []
    (by decide) (Or.inl (by decide)) (by decide) (by decide) (by decide) (by decide)

/-- C7 counterexample: a non-interruption read failure during the waker
drain does not reach the wait caller as a propagated error — the `unwrap`
inside the iteration aborts the program (the run is `none`), yielding
neither events nor an error value. -/
theorem snooze_error_aborts_iteration :
    snooze [IoCall.err IoErrKind.other] = some (Except.error IoErrKind.other) ∧
    consumeGo [((0 : Nat), (5 : Int))] [((5 : Int), [IoCall.err IoErrKind.other])]
      [(0, (7 : Nat), { fd := 5, events := events.READ, revents := events.POLLIN })] =
      none := by
  exact ⟨rfl, rfl⟩

/-- C7 amended: the waker drain (`snooze`, via `read_exact`) reads and
discards exactly one sentinel byte, retries when the read is interrupted,
and returns any other read failure as an error from `snooze`; inside `wait`
that error is unwrapped, aborting the program rather than being returned as
an error value to the wait caller. -/
theorem snooze_retry_propagate_abort {K : Type} (pre rest calls : List IoCall)
    (k : IoErrKind) (wakers : List (Nat × Int)) (pipes : Pipes) (i : Nat) (key : K)
    (descriptor : Descriptor) (fd : Int)
    (hpre : ∀ c ∈ pre, c = IoCall.err IoErrKind.interrupted)
    (hk : k ≠ IoErrKind.interrupted)
    (hw : lookupAssoc wakers i = some fd)
    (hp : lookupPipe pipes fd = some calls)
    (hcalls : calls = pre ++ IoCall.err k :: rest) :
    snooze (pre ++ IoCall.ok 1 :: rest) = some (Except.ok rest) ∧
    snooze calls = some (Except.error k) ∧
    consumeStep wakers pipes (i, key, descriptor) = none := by
  have h2 : snooze calls = some (Except.error k) := by
    rw [hcalls]
    unfold snooze
    rw [readExactGo_skips_interrupted pre hpre (IoCall.err k :: rest)]
    simp [readExactGo, hk]
  refine ⟨?_, h2, ?_⟩
  · unfold snooze
    rw [readExactGo_skips_interrupted pre hpre (IoCall.ok 1 :: rest)]
    exact readExactGo_ok_one rest
  · by_cases hr : descriptor.revents &&& events.READ = 0
    · simp [consumeStep, consumeEffects, hw, hr]
    · by_cases hw2 : descriptor.revents &&& events.WRITE = 0
      · simp [consumeStep, consumeEffects, hw, hr, hw2, hp, h2]
      · simp [consumeStep, consumeEffects, hw, hr, hw2, ite_self]

/-- Witness for C7's amended claim at a concrete waker and pipe state. -/
theorem snooze_retry_propagate_abort_witness :
    snooze ([IoCall.err IoErrKind.interrupted] ++ IoCall.ok 1 :: []) =
      some (Except.ok []) ∧
    snooze [IoCall.err IoErrKind.interrupted, IoCall.err IoErrKind.other] =
      some (Except.error IoErrKind.other) ∧
    consumeStep [((0 : Nat), (5 : Int))]
      [((5 : Int), [IoCall.err IoErrKind.interrupted, IoCall.err IoErrKind.other])]
      (0, (0 : Nat), { fd := 5, events := events.READ, revents := events.POLLIN }) = none :=
  snooze_retry_propagate_abort [IoCall.err IoErrKind.interrupted] []
    [IoCall.err IoErrKind.interrupted, IoCall.err IoErrKind.other] IoErrKind.other
    [((0 : Nat), (5 : Int))]
    [((5 : Int), [IoCall.err IoErrKind.interrupted, IoCall.err IoErrKind.other])]
    0 (0 : Nat) { fd := 5, events := events.READ, revents := events.POLLIN } 5
    (by decide) (by decide) (by decide) (by decide) (by decide)

/-- C8 counterexample: registering entries with handles 1 then 2 under the
same key 7, keyed lookup resolves to the FIRST-registered entry (handle 1),
not the last, and keyed interest update modifies the first entry — both
entries remain present. -/
theorem duplicate_key_lookup_not_last :
    Descriptors.get_mut
        (((Descriptors.new : Descriptors Nat).register 7 1 events.READ).register 7 2
          events.READ) 7 =
      some { fd := 1, events := events.READ, revents := 0 } ∧
    ({ fd := 1, events := events.READ, revents := 0 } : Descriptor) ≠
      { fd := 2, events := events.READ, revents := 0 } ∧
    (((Descriptors.new : Descriptors Nat).register 7 1 events.READ).register 7 2
        events.READ).set 7 events.WRITE =
      ({ wakers := [], index := [7, 7],
         list := [{ fd := 1, events := events.WRITE, revents := 0 },
                  { fd := 2, events := events.READ, revents := 0 }] }, true) := by
  decide

/-- C8 amended: with two entries registered under equal keys, keyed lookup
(`get_mut`) and keyed interest update (`set`) resolve to the
FIRST-registered entry with that key, while both entries remain present and
iterable. -/
theorem duplicate_key_first_registered_wins {K : Type} [DecidableEq K]
    (d0 : Descriptors K) (k : K) (e1 e2 : Descriptor) (ev : Events)
    (hk : ∀ x ∈ d0.index, x ≠ k)
    (hlen : d0.index.length = d0.list.length) :
    Descriptors.get_mut ((d0.insert k e1).insert k e2) k = some e1 ∧
    ((d0.insert k e1).insert k e2).index = d0.index ++ [k, k] ∧
    ((d0.insert k e1).insert k e2).list = d0.list ++ [e1, e2] ∧
    ((d0.insert k e1).insert k e2).set k ev =
      ({ d0 with index := d0.index ++ [k, k],
                 list := d0.list ++ [{ e1 with events := ev }, e2] }, true) := by
  have hidx : ((d0.insert k e1).insert k e2).index = d0.index ++ [k, k] := by
    simp [Descriptors.insert]
  have hlst : ((d0.insert k e1).insert k e2).list = d0.list ++ [e1, e2] := by
    simp [Descriptors.insert]
  have hpos : positionOf k ((d0.insert k e1).insert k e2).index = some d0.index.length := by
    rw [hidx]
    exact positionOf_append_cons k d0.index [k] hk
  refine ⟨?_, hidx, hlst, ?_⟩
  · unfold Descriptors.get_mut
    rw [hpos]
    show (((d0.insert k e1).insert k e2).list)[d0.index.length]? = some e1
    rw [hlst, hlen, List.getElem?_append_right (Nat.le_refl _)]
    simp
  · unfold Descriptors.set
    rw [hpos]
    show ({ (d0.insert k e1).insert k e2 with
        list := modifyIdx ((d0.insert k e1).insert k e2).list d0.index.length
          fun de => { de with events := ev } }, true) = _
    rw [hlst, hlen, modifyIdx_append]
    simp [Descriptors.insert, List.append_assoc, modifyIdx]

/-- Witness for C8's amended claim: two entries under key 7 in an initially
empty registry. -/
theorem duplicate_key_first_registered_wins_witness :
    Descriptors.get_mut
        (((Descriptors.new : Descriptors Nat).insert 7
            { fd := 1, events := events.READ, revents := 0 }).insert 7
          { fd := 2, events := events.READ, revents := 0 }) 7 =
      some { fd := 1, events := events.READ, revents := 0 } ∧
    (((Descriptors.new : Descriptors Nat).insert 7
        { fd := 1, events := events.READ, revents := 0 }).insert 7
      { fd := 2, events := events.READ, revents := 0 }).index =
      (Descriptors.new : Descriptors Nat).index ++ [7, 7] ∧
    (((Descriptors.new : Descriptors Nat).insert 7
        { fd := 1, events := events.READ, revents := 0 }).insert 7
      { fd := 2, events := events.READ, revents := 0 }).list =
      (Descriptors.new : Descriptors Nat).list ++
        [{ fd := 1, events := events.READ, revents := 0 },
         { fd := 2, events := events.READ, revents := 0 }] ∧
    (((Descriptors.new : Descriptors Nat).insert 7
        { fd := 1, events := events.READ, revents := 0 }).insert 7
      { fd := 2, events := events.READ, revents := 0 }).set 7 events.WRITE =
      ({ (Descriptors.new : Descriptors Nat) with
          index := (Descriptors.new : Descriptors Nat).index ++ [7, 7],
          list := (Descriptors.new : Descriptors Nat).list ++
            [{ fd := 1, events := events.WRITE, revents := 0 },
             { fd := 2, events := events.READ, revents := 0 }] }, true) :=
  duplicate_key_first_registered_wins Descriptors.new 7
    { fd := 1, events := events.READ, revents := 0 }
    { fd := 2, events := events.READ, revents := 0 } events.WRITE (by simp [Descriptors.new])
    rfl

/-- C9: the yielded event's facets derive from the observed bits — readable
iff a read bit (data-available POLLIN or urgent POLLPRI) is set, writable
iff a write bit (POLLOUT or POLLWRBAND) is set, hung-up iff POLLHUP is set,
errored iff POLLERR or POLLNVAL is set — independently of the requested
interest bits. -/
theorem event_facets_from_observed_bits (d : Descriptor) (ev : Events) :
    ((Event.ofDescriptor d).readable = true ↔
      (d.revents &&& events.POLLIN ≠ 0 ∨ d.revents &&& events.POLLPRI ≠ 0)) ∧
    ((Event.ofDescriptor d).writable = true ↔
      (d.revents &&& events.POLLOUT ≠ 0 ∨ d.revents &&& events.POLLWRBAND ≠ 0)) ∧
    ((Event.ofDescriptor d).hangup = true ↔ d.revents &&& events.POLLHUP ≠ 0) ∧
    ((Event.ofDescriptor d).errored = true ↔
      (d.revents &&& events.POLLERR ≠ 0 ∨ d.revents &&& events.POLLNVAL ≠ 0)) ∧
    (Event.ofDescriptor { d with events := ev }).readable =
      (Event.ofDescriptor d).readable ∧
    (Event.ofDescriptor { d with events := ev }).writable =
      (Event.ofDescriptor d).writable ∧
    (Event.ofDescriptor { d with events := ev }).hangup = (Event.ofDescriptor d).hangup ∧
    (Event.ofDescriptor { d with events := ev }).errored =
      (Event.ofDescriptor d).errored := by
  refine ⟨?_, ?_, ?_, ?_, rfl, rfl, rfl, rfl⟩
  · simp only [Event.ofDescriptor, bne_iff_ne, ne_eq, events.READ]
    exact and_mask_or_ne_zero d.revents events.POLLIN events.POLLPRI
  · simp only [Event.ofDescriptor, bne_iff_ne, ne_eq, events.WRITE]
    exact and_mask_or_ne_zero d.revents events.POLLOUT events.POLLWRBAND
  · simp only [Event.ofDescriptor, bne_iff_ne, ne_eq]
  · simp only [Event.ofDescriptor, bne_iff_ne, ne_eq]
    exact and_mask_or_ne_zero d.revents events.POLLERR events.POLLNVAL

/-- C10: for every sequence of registry operations starting from `new` or
`with_capacity`, the key sequence and the entry sequence have equal length,
so every position indexes both in lock-step. -/
theorem registry_parallel_lengths_invariant {K : Type} [DecidableEq K]
    (cap : Option Nat) (ops : List (Op K)) :
    (applyOps (initReg K cap) ops).index.length =
      (applyOps (initReg K cap) ops).list.length := by
  apply applyOps_len
  cases cap <;> rfl

end Popol
